import Mathlib

/-!
Shallow embedding of the synchronization layer in threads/synch.c:
semaphores, locks with priority donation, and Mesa-style condition
variables.  The unsigned C counters are modelled as Int so that
nonnegativity is a provable invariant rather than a typing artifact.
Blocking control flow is modelled by explicit outcomes: an operation
either completes (ok), suspends at its block point (blocked), or fails a
fatal assertion (fatal).  Sequences of completed operations are modelled
as lists of events folded through step functions.
-/

namespace Synch

/-- Thread handle fields used by this layer (struct thread, declared in
threads/thread.h): effective priority, base priority (original_priority),
and the lock the thread is blocked on (waiting_lock, a lock identifier
standing for the C pointer).  The intrusive donations list is passed
around explicitly as a list of donor thread records. -/
structure Thread where
  id : Nat
  priority : Int
  original_priority : Int
  waiting_lock : Option Nat
deriving DecidableEq

/-- Semaphore (struct semaphore): counter plus waiter list.  The C counter
is unsigned; it is modelled as Int (see module comment). -/
structure Semaphore where
  value : Int
  waiters : List Thread
deriving DecidableEq

/-- Lock (struct lock): owner thread id and internal semaphore; id stands
for the C object identity used by the pointer comparison
t->waiting_lock == lock in lock_release. -/
structure Lock where
  id : Nat
  holder : Option Nat
  semaphore : Semaphore
deriving DecidableEq

/-- Outcome of an operation that can fail a fatal assertion (ASSERT) or
suspend the caller at a block point (thread_block inside sema_down). -/
inductive Outcome (α : Type) where
  | fatal
  | blocked
  | ok (val : α)
deriving DecidableEq

/-- Modelled from the spec: list_max lives in lib/kernel/list.c, which is
not under src/.  Per the ordered-container contract it returns the
element maximal with respect to less, keeping the earliest of equal
elements (the running maximum is replaced only when strictly less); this
is the fold from a first candidate. -/
def list_max_from {α : Type} (less : α → α → Bool) (m : α) : List α → α
  | [] => m
  | x :: xs => list_max_from less (if less m x then x else m) xs

/-- Modelled from the spec: list_max on a possibly empty list.  On an
empty list the C function returns the list sentinel, which is not a
payload element; that case is modelled as none. -/
def list_max {α : Type} (less : α → α → Bool) : List α → Option α
  | [] => none
  | x :: xs => some (list_max_from less x xs)

/-- Modelled from the spec: priority_less_func lives in threads/thread.c,
which is not under src/.  It is the comparator on threads by effective
priority that makes list_max return a highest-priority thread. -/
def priority_less_func (a b : Thread) : Bool := decide (a.priority < b.priority)

/-- Initializes semaphore SEMA to VALUE (sema_init). -/
def sema_init (value : Nat) : Semaphore := { value := (value : Int), waiters := [] }

/-- Down or P operation (sema_down).  Fatal from interrupt context.  The
loop body (donation notification, enqueueing the caller, thread_block) is
the suspension: a call that finds value = 0 is blocked until some up
makes the caller runnable again, so a completed down happens only from a
state whose counter differs from 0, and it decrements the counter. -/
def sema_down (intr : Bool) (s : Semaphore) : Outcome Semaphore :=
  if intr then .fatal
  else if s.value = 0 then .blocked
  else .ok { s with value := s.value - 1 }

/-- Result of sema_try_down: success flag, updated semaphore, and whether
the donation notification step (thread_try_donate_priority, defined in
threads/thread.c outside src/) was invoked; only the fact of the call is
modelled, as in the source it acts on thread state, not on the
semaphore. -/
structure TryDownResult where
  success : Bool
  sema : Semaphore
  donated : Bool
deriving DecidableEq

/-- Down or P operation that never suspends (sema_try_down): decrements
and succeeds when the counter is positive, otherwise invokes the donation
notification step and reports failure as the boolean false. -/
def sema_try_down (s : Semaphore) : TryDownResult :=
  if 0 < s.value then { success := true, sema := { s with value := s.value - 1 }, donated := false }
  else { success := false, sema := s, donated := true }

/-- Up or V operation (sema_up): when the waiter list is nonempty, the
highest-priority waiter (list_max with priority_less_func) is removed and
unblocked, then the counter is incremented.  The trailing conditional
thread_yield is advisory scheduling and not part of the semaphore state
change. -/
def sema_up (s : Semaphore) : Semaphore × Option Thread :=
  match list_max priority_less_func s.waiters with
  | none => ({ s with value := s.value + 1 }, none)
  | some w => ({ value := s.value + 1, waiters := s.waiters.erase w }, some w)

/-- A completed semaphore operation in a trace. -/
inductive SemaOp where
  | down
  | up
deriving DecidableEq

/-- One completed operation on (semaphore, completed downs, completed
ups): a down completes through sema_down (never from interrupt context on
a completed path), an up through sema_up.  A blocked down is not a
completed operation and contributes no step. -/
def sema_trace_step (st : Semaphore × Nat × Nat) : SemaOp → Option (Semaphore × Nat × Nat)
  | .down =>
    match sema_down false st.1 with
    | .ok s2 => some (s2, st.2.1 + 1, st.2.2)
    | _ => none
  | .up => some ((sema_up st.1).1, st.2.1, st.2.2 + 1)

/-- Folds a sequence of completed semaphore operations. -/
def sema_run (st : Semaphore × Nat × Nat) : List SemaOp → Option (Semaphore × Nat × Nat)
  | [] => some st
  | op :: rest =>
    match sema_trace_step st op with
    | none => none
    | some st2 => sema_run st2 rest

/-- Returns whether the lock's holder is the current thread
(lock_held_by_current_thread); threads are compared by id, standing for
the C pointer comparison with thread_current (). -/
def lock_held_by_current_thread (lk : Lock) (currentId : Nat) : Bool :=
  decide (lk.holder = some currentId)

/-- Initializes LOCK (lock_init): no holder, internal semaphore at 1. -/
def lock_init (id : Nat) : Lock := { id := id, holder := none, semaphore := sema_init 1 }

/-- Modelled from the spec: list_insert_ordered (lib/kernel/list.c) with
the thread priority comparator is not under src/; the spec keeps donors
ordered by descending priority so the highest-priority donor sits at the
front.  Ties go after existing entries of equal priority. -/
def insert_ordered_desc (t : Thread) : List Thread → List Thread
  | [] => [t]
  | x :: xs => if x.priority < t.priority then t :: x :: xs else x :: insert_ordered_desc t xs

/-- Effect of lock_acquire before its sema_down when the lock is held
(synch.c lines 227 to 230): the caller records the lock it now waits on
and enters the holder's donations list in priority order. -/
def lock_acquire_contended (current : Thread) (lk : Lock) (holderDonations : List Thread) :
    Thread × List Thread :=
  if lk.holder.isSome then
    ({ current with waiting_lock := some lk.id }, insert_ordered_desc current holderDonations)
  else (current, holderDonations)

/-- Acquires LOCK (lock_acquire): fatal from interrupt context or when the
caller already holds the lock; a contended call suspends inside sema_down
(after the lock_acquire_contended bookkeeping on the holder's state); a
completed call decrements the internal semaphore, clears waiting_lock and
records the caller as holder. -/
def lock_acquire (intr : Bool) (current : Thread) (lk : Lock) : Outcome (Lock × Thread) :=
  if intr then .fatal
  else if lock_held_by_current_thread lk current.id then .fatal
  else
    match sema_down intr lk.semaphore with
    | .fatal => .fatal
    | .blocked => .blocked
    | .ok s2 =>
      .ok ({ lk with holder := some current.id, semaphore := s2 },
           { current with waiting_lock := none })

/-- Tries to acquire LOCK without blocking (lock_try_acquire): fatal when
the caller already holds it; on a successful probe the caller becomes
holder and waiting_lock is cleared; on contention the lock is unchanged
and false is returned. -/
def lock_try_acquire (current : Thread) (lk : Lock) : Outcome (Bool × Lock × Thread) :=
  if lock_held_by_current_thread lk current.id then .fatal
  else
    let r := sema_try_down lk.semaphore
    if r.success then
      .ok (true, { lk with holder := some current.id, semaphore := r.sema },
           { current with waiting_lock := none })
    else .ok (false, { lk with semaphore := r.sema }, current)

/-- Removal loop of lock_release (synch.c lines 299 to 304): walk the
donations list and unlink every donor whose waiting_lock is this lock;
list_remove leaves the removed node's own links intact, so the iteration
visits every original element in order. -/
def remove_lock_donors (lockId : Nat) : List Thread → List Thread
  | [] => []
  | t :: rest =>
    if t.waiting_lock = some lockId then remove_lock_donors lockId rest
    else t :: remove_lock_donors lockId rest

/-- Result of lock_release: updated lock, releasing thread, its remaining
donations, the pending-yield flag, and the thread woken by sema_up. -/
structure ReleaseResult where
  lock : Lock
  current : Thread
  donations : List Thread
  yield : Bool
  woken : Option Thread
deriving DecidableEq

/-- Releases LOCK (lock_release): fatal unless held by the caller; clears
the holder, purges donors waiting on this lock, marks a pending yield
when the priority had been elevated, resets the caller's priority to its
base and re-raises it to the front of the remaining donations list when
that donor's priority exceeds the base, then performs sema_up on the
internal semaphore. -/
def lock_release (current : Thread) (donations : List Thread) (lk : Lock) :
    Outcome ReleaseResult :=
  if lock_held_by_current_thread lk current.id then
    let donations2 := remove_lock_donors lk.id donations
    let yield := decide (current.original_priority < current.priority)
    let newPrio :=
      match donations2 with
      | [] => current.original_priority
      | d :: _ =>
        if current.original_priority < d.priority then d.priority
        else current.original_priority
    let up := sema_up lk.semaphore
    .ok { lock := { lk with holder := none, semaphore := up.1 },
          current := { current with priority := newPrio },
          donations := donations2,
          yield := yield,
          woken := up.2 }
  else .fatal

/-- Highest priority available to a released thread: base priority raised
by the priorities of the given remaining donors. -/
def donorMaxPrio (base : Int) (l : List Thread) : Int :=
  l.foldl (fun acc d => max acc d.priority) base

/-- A completed lock operation in a trace. -/
inductive LockOp where
  | acquire (t : Nat)
  | release (t : Nat)
deriving DecidableEq

/-- One completed lock operation: a completed (non-blocked, non-fatal)
lock_acquire or lock_release by thread t.  The caller's priority fields
and donation list do not affect the lock's holder or counter, so the
trace carries the lock alone and passes a minimal thread record. -/
def lock_step (lk : Lock) : LockOp → Option Lock
  | .acquire t =>
    match lock_acquire false { id := t, priority := 0, original_priority := 0, waiting_lock := none } lk with
    | .ok (lk2, _) => some lk2
    | _ => none
  | .release t =>
    match lock_release { id := t, priority := 0, original_priority := 0, waiting_lock := none } [] lk with
    | .ok r => some r.lock
    | _ => none

/-- Folds a sequence of completed lock operations. -/
def lock_run (lk : Lock) : List LockOp → Option Lock
  | [] => some lk
  | op :: rest =>
    match lock_step lk op with
    | none => none
    | some lk2 => lock_run lk2 rest

/-- The thread that last completed an acquire, with no release completed
after it, along a trace of completed lock operations. -/
def last_acquirer : Option Nat → List LockOp → Option Nat
  | cur, [] => cur
  | _, LockOp.acquire t :: rest => last_acquirer (some t) rest
  | _, LockOp.release _ :: rest => last_acquirer none rest

/-- One semaphore in a list (struct semaphore_elem). -/
structure semaphore_elem where
  semaphore : Semaphore
deriving DecidableEq

/-- Condition variable (struct condition): a sequence of private
semaphores, one per waiting thread. -/
structure Condition where
  waiters : List semaphore_elem
deriving DecidableEq

/-- Result of a condition-variable operation: fatal assertion failure,
undefined dereference of the list sentinel inside the comparator
(modelled explicitly rather than as arbitrary behavior), or
completion. -/
inductive CondResult (α : Type) where
  | fatal
  | undefined
  | ok (val : α)
deriving DecidableEq

/-- Returns whether a CondResult is a completion. -/
def CondResult.isOk {α : Type} : CondResult α → Bool
  | .ok _ => true
  | _ => false

/-- Initializes condition variable COND (cond_init). -/
def cond_init : Condition := { waiters := [] }

/-- Comparator on queued private semaphores (sem_less_priority_func): each
side takes the list_max of its semaphore's waiter list and dereferences
it as a thread.  When a waiter list is empty, list_max yields the list
sentinel and list_entry on it does not produce a thread: modelled as
none. -/
def sem_less_priority_func (e1 e2 : semaphore_elem) : Option Bool :=
  match list_max priority_less_func e1.semaphore.waiters,
        list_max priority_less_func e2.semaphore.waiters with
  | some t1, some t2 => some (decide (t1.priority < t2.priority))
  | _, _ => none

/-- Priority of the thread a queued private semaphore is blocking (the
list_max of its waiter list); 0 is a dummy for the empty case, in which
the comparator is undefined anyway. -/
def entryPrio (e : semaphore_elem) : Int :=
  match list_max priority_less_func e.semaphore.waiters with
  | some t => t.priority
  | none => 0

/-- Total comparator that the partial sem_less_priority_func agrees with
on entries whose waiter lists are nonempty. -/
def entry_less (a b : semaphore_elem) : Bool := decide (entryPrio a < entryPrio b)

/-- Fold of list_max when the comparator itself can hit undefined
behavior: none as soon as one comparison is undefined. -/
def list_max_with {α : Type} (less : α → α → Option Bool) (m : α) : List α → Option α
  | [] => some m
  | x :: xs =>
    match less m x with
    | none => none
    | some b => list_max_with less (if b then x else m) xs

/-- Signals one waiter (cond_signal): fatal from interrupt context or when
the caller does not hold the lock; with a nonempty waiter sequence the
entry maximal under sem_less_priority_func is removed and its private
semaphore upped; the returned payload is the removed entry together with
the result of that sema_up (upped semaphore and woken thread). -/
def cond_signal (intr : Bool) (currentId : Nat) (lk : Lock) (cond : Condition) :
    CondResult (Condition × Option (semaphore_elem × Semaphore × Option Thread)) :=
  if intr then .fatal
  else if lock_held_by_current_thread lk currentId then
    match cond.waiters with
    | [] => .ok (cond, none)
    | x :: xs =>
      match list_max_with sem_less_priority_func x xs with
      | none => .undefined
      | some m => .ok ({ waiters := (x :: xs).erase m }, some (m, sema_up m.semaphore))
  else .fatal

/-- Loop of cond_broadcast: cond_signal until the waiter sequence is
empty, collecting the signalled entries in wake order.  The fuel argument
is the waiter count at entry; each iteration removes exactly one waiter,
so the zero-fuel case with waiters pending is unreachable from
cond_broadcast (established in the lemmas below) and mapped to undefined. -/
def cond_broadcast_go (intr : Bool) (currentId : Nat) (lk : Lock) :
    Nat → List semaphore_elem → CondResult (List semaphore_elem)
  | _, [] => .ok []
  | 0, _ :: _ => .undefined
  | n + 1, x :: xs =>
    if intr then .fatal
    else if lock_held_by_current_thread lk currentId then
      match list_max_with sem_less_priority_func x xs with
      | none => .undefined
      | some m =>
        match cond_broadcast_go intr currentId lk n ((x :: xs).erase m) with
        | CondResult.ok rest => .ok (m :: rest)
        | CondResult.fatal => .fatal
        | CondResult.undefined => .undefined
    else .fatal

/-- Wakes all waiters (cond_broadcast): of its own it only asserts non-NULL
arguments, then invokes cond_signal while the waiter sequence is
nonempty; with an empty sequence the loop body never runs. -/
def cond_broadcast (intr : Bool) (currentId : Nat) (lk : Lock) (cond : Condition) :
    CondResult (Condition × List semaphore_elem) :=
  match cond_broadcast_go intr currentId lk cond.waiters.length cond.waiters with
  | CondResult.ok l => .ok ({ waiters := [] }, l)
  | CondResult.fatal => .fatal
  | CondResult.undefined => .undefined

/-- State of a cond_wait caller at its suspension point. -/
structure CondWaitBlocked where
  cond : Condition
  lock : Lock
  current : Thread
  donations : List Thread
  privateSema : Semaphore
deriving DecidableEq

/-- First half of cond_wait, up to its suspension point: fatal from
interrupt context or when the caller does not hold the lock; otherwise a
fresh private semaphore at value 0 is appended to the waiter sequence,
the lock is released, and the caller blocks on the private semaphore
(sema_down pushes the caller onto its waiter list before suspending; the
entry in cond.waiters aliases that same stack-allocated semaphore, so
both are shown in their state at the suspension instant). -/
def cond_wait_enter (intr : Bool) (current : Thread) (donations : List Thread)
    (lk : Lock) (cond : Condition) : Outcome CondWaitBlocked :=
  if intr then .fatal
  else if lock_held_by_current_thread lk current.id then
    match lock_release current donations lk with
    | .ok r =>
      let waiterBlocked : Semaphore := { value := 0, waiters := [r.current] }
      .ok { cond := { waiters := cond.waiters ++ [{ semaphore := waiterBlocked }] },
            lock := r.lock, current := r.current, donations := r.donations,
            privateSema := waiterBlocked }
    | _ => .fatal
  else .fatal

/-- Second half of cond_wait, from wake-up to return: the down on the (by
now upped) private semaphore completes and the lock is reacquired before
returning. -/
def cond_wait_exit (current : Thread) (priv : Semaphore) (lk : Lock) :
    Outcome (Lock × Thread) :=
  match sema_down false priv with
  | .fatal => .fatal
  | .blocked => .blocked
  | .ok _ => lock_acquire false current lk

/-! Generic lemmas about the ordered-container folds. -/

theorem list_max_from_mem {α : Type} (less : α → α → Bool) (m : α) (l : List α) :
    list_max_from less m l = m ∨ list_max_from less m l ∈ l := by
  induction l generalizing m with
  | nil => exact Or.inl rfl
  | cons x xs ih =>
    simp only [list_max_from]
    rcases ih (if less m x then x else m) with h | h
    · rw [h]
      by_cases hc : less m x = true
      · simp only [hc, if_true]
        exact Or.inr (List.mem_cons_self x xs)
      · simp only [eq_false_of_ne_true hc, if_false]
        exact Or.inl rfl
    · exact Or.inr (List.mem_cons_of_mem x h)

theorem list_max_from_ge {α : Type} (f : α → Int) (less : α → α → Bool)
    (hless : ∀ a b, less a b = decide (f a < f b)) (m : α) (l : List α) :
    f m ≤ f (list_max_from less m l) ∧ ∀ y ∈ l, f y ≤ f (list_max_from less m l) := by
  induction l generalizing m with
  | nil => exact ⟨le_refl _, by intro y hy; cases hy⟩
  | cons x xs ih =>
    simp only [list_max_from]
    have hstep : f m ≤ f (if less m x then x else m) ∧ f x ≤ f (if less m x then x else m) := by
      rw [hless m x]
      by_cases hfm : f m < f x
      · simp only [hfm, decide_eq_true_eq, if_true, decide_eq_true]
        exact ⟨le_of_lt hfm, le_refl _⟩
      · simp only [decide_eq_true_eq, if_neg hfm]
        exact ⟨le_refl _, le_of_not_lt hfm⟩
    obtain ⟨h1, h2⟩ := ih (if less m x then x else m)
    refine ⟨le_trans hstep.1 h1, ?_⟩
    intro y hy
    rcases List.mem_cons.mp hy with rfl | hy2
    · exact le_trans hstep.2 h1
    · exact h2 y hy2

theorem list_max_with_mem {α : Type} (less : α → α → Option Bool) (m : α) (l : List α)
    (r : α) (h : list_max_with less m l = some r) : r = m ∨ r ∈ l := by
  induction l generalizing m with
  | nil =>
    simp only [list_max_with, Option.some.injEq] at h
    exact Or.inl h.symm
  | cons x xs ih =>
    simp only [list_max_with] at h
    cases hc : less m x with
    | none => rw [hc] at h; cases h
    | some b =>
      rw [hc] at h
      rcases ih (if b then x else m) h with h2 | h2
      · cases b with
        | true =>
          simp at h2
          exact Or.inr (h2 ▸ List.mem_cons_self x xs)
        | false =>
          simp at h2
          exact Or.inl h2
      · exact Or.inr (List.mem_cons_of_mem x h2)

theorem sema_up_value (s : Semaphore) : (sema_up s).1.value = s.value + 1 := by
  cases hm : list_max priority_less_func s.waiters <;> simp [sema_up, hm]

/-! Trace invariant behind C4. -/

theorem sema_run_invariant (v : Nat) (ops : List SemaOp) :
    ∀ st0 st : Semaphore × Nat × Nat,
      0 ≤ st0.1.value → st0.1.value = (v : Int) + st0.2.2 - st0.2.1 →
      sema_run st0 ops = some st →
      0 ≤ st.1.value ∧ st.1.value = (v : Int) + st.2.2 - st.2.1 := by
  induction ops with
  | nil =>
    intro st0 st h0 h1 h
    simp only [sema_run, Option.some.injEq] at h
    rw [← h]
    exact ⟨h0, h1⟩
  | cons op rest ih =>
    intro st0 st h0 h1 h
    simp only [sema_run] at h
    cases op with
    | down =>
      by_cases hz : st0.1.value = 0
      · rw [show sema_trace_step st0 SemaOp.down = none from by
          simp [sema_trace_step, sema_down, hz]] at h
        cases h
      · rw [show sema_trace_step st0 SemaOp.down =
            some ({ st0.1 with value := st0.1.value - 1 }, st0.2.1 + 1, st0.2.2) from by
          simp [sema_trace_step, sema_down, hz]] at h
        refine ih _ st ?_ ?_ h
        · show (0 : Int) ≤ st0.1.value - 1
          omega
        · show st0.1.value - 1 = (v : Int) + st0.2.2 - (st0.2.1 + 1)
          omega
    | up =>
      refine ih ((sema_up st0.1).1, st0.2.1, st0.2.2 + 1) st ?_ ?_ h
      · show (0 : Int) ≤ (sema_up st0.1).1.value
        rw [sema_up_value]
        omega
      · show (sema_up st0.1).1.value = (v : Int) + (st0.2.2 + 1) - st0.2.1
        rw [sema_up_value]
        omega

/-- C4: along any sequence of completed down and up operations on one
semaphore starting from sema_init, the counter never becomes negative, it
always equals the initial value plus completed ups minus completed downs,
and the number of completed downs never exceeds the number of completed
ups plus the initial value. -/
theorem sema_value_never_negative (v : Nat) (ops : List SemaOp)
    (st : Semaphore × Nat × Nat)
    (h : sema_run (sema_init v, 0, 0) ops = some st) :
    0 ≤ st.1.value ∧ st.1.value = (v : Int) + st.2.2 - st.2.1 ∧ st.2.1 ≤ st.2.2 + v := by
  have hinv := sema_run_invariant v ops (sema_init v, 0, 0) st (by simp [sema_init]) (by simp [sema_init]) h
  refine ⟨hinv.1, hinv.2, ?_⟩
  have := hinv.1
  rw [hinv.2] at this
  omega

/-- Witness for C4 at a concrete trace. -/
theorem sema_value_never_negative_witness :
    sema_run (sema_init 1, 0, 0) [SemaOp.down, SemaOp.up, SemaOp.up, SemaOp.down] =
      some (({ value := 1, waiters := [] } : Semaphore), 2, 2) ∧
    (0 ≤ (({ value := 1, waiters := [] } : Semaphore), 2, 2).1.value ∧
      (({ value := 1, waiters := [] } : Semaphore), 2, 2).1.value =
        ((1 : Nat) : Int) + (({ value := 1, waiters := [] } : Semaphore), 2, 2).2.2 -
          (({ value := 1, waiters := [] } : Semaphore), 2, 2).2.1 ∧
      (({ value := 1, waiters := [] } : Semaphore), 2, 2).2.1 ≤
        (({ value := 1, waiters := [] } : Semaphore), 2, 2).2.2 + 1) :=
  ⟨by decide, sema_value_never_negative 1 [SemaOp.down, SemaOp.up, SemaOp.up, SemaOp.down]
    (({ value := 1, waiters := [] } : Semaphore), 2, 2) (by decide)⟩

/-- C6: sema_try_down succeeds and decrements exactly when the counter is
positive; otherwise it invokes the donation-notification step, leaves the
semaphore unchanged, and reports failure as the boolean false; the waiter
list is never touched and the caller is never suspended (the operation
always yields a result).  At the lock layer, contention on
lock_try_acquire is likewise reported as a false return with the lock and
thread unchanged, never as a fatal outcome. -/
theorem sema_try_down_contract (s : Semaphore) (current : Thread) (lk : Lock) :
    ((sema_try_down s).success = true ↔ 0 < s.value) ∧
    (0 < s.value →
      (sema_try_down s).sema.value = s.value - 1 ∧ (sema_try_down s).donated = false) ∧
    (¬ 0 < s.value →
      (sema_try_down s).sema = s ∧ (sema_try_down s).success = false ∧
        (sema_try_down s).donated = true) ∧
    (sema_try_down s).sema.waiters = s.waiters ∧
    (lock_held_by_current_thread lk current.id = false → lk.semaphore.value ≤ 0 →
      lock_try_acquire current lk = .ok (false, lk, current)) := by
  refine ⟨?_, ?_, ?_, ?_, ?_⟩
  · by_cases hp : 0 < s.value <;> simp [sema_try_down, hp]
  · intro hp
    simp [sema_try_down, hp]
  · intro hp
    simp [sema_try_down, hp]
  · by_cases hp : 0 < s.value <;> simp [sema_try_down, hp]
  · intro hheld hle
    have hnot : ¬ 0 < lk.semaphore.value := by omega
    simp [lock_try_acquire, hheld, sema_try_down, hnot]

/-- Witness for C6 at a concrete contended lock. -/
theorem sema_try_down_contract_witness :
    lock_held_by_current_thread ⟨7, some 1, ⟨0, []⟩⟩ 2 = false ∧
    (⟨7, some 1, ⟨0, []⟩⟩ : Lock).semaphore.value ≤ 0 ∧
    lock_try_acquire ⟨2, 3, 3, none⟩ ⟨7, some 1, ⟨0, []⟩⟩ =
      .ok (false, ⟨7, some 1, ⟨0, []⟩⟩, ⟨2, 3, 3, none⟩) :=
  ⟨by decide, by decide,
    (sema_try_down_contract ⟨0, []⟩ ⟨2, 3, 3, none⟩ ⟨7, some 1, ⟨0, []⟩⟩).2.2.2.2
      (by decide) (by decide)⟩

theorem sema_up_spec (s : Semaphore) (h : s.waiters ≠ []) :
    ∃ w, (sema_up s).2 = some w ∧ w ∈ s.waiters ∧
      (∀ t ∈ s.waiters, t.priority ≤ w.priority) ∧
      (sema_up s).1.waiters = s.waiters.erase w ∧
      (sema_up s).1.value = s.value + 1 ∧
      (sema_up s).1.waiters.length + 1 = s.waiters.length := by
  cases hw : s.waiters with
  | nil => exact absurd hw h
  | cons x xs =>
    have hup : sema_up s =
        ({ value := s.value + 1,
           waiters := (x :: xs).erase (list_max_from priority_less_func x xs) },
         some (list_max_from priority_less_func x xs)) := by
      simp [sema_up, list_max, hw]
    have hmem : list_max_from priority_less_func x xs ∈ x :: xs := by
      rcases list_max_from_mem priority_less_func x xs with h2 | h2
      · rw [h2]; exact List.mem_cons_self x xs
      · exact List.mem_cons_of_mem x h2
    have hge := list_max_from_ge Thread.priority priority_less_func (fun a b => rfl) x xs
    refine ⟨list_max_from priority_less_func x xs, ?_, ?_, ?_, ?_, ?_, ?_⟩
    · rw [hup]
    · exact hmem
    · intro t ht
      rcases List.mem_cons.mp ht with rfl | ht2
      · exact hge.1
      · exact hge.2 t ht2
    · rw [hup]
    · rw [hup]
    · rw [hup]
      show ((x :: xs).erase (list_max_from priority_less_func x xs)).length + 1 =
        (x :: xs).length
      rw [List.length_erase_of_mem hmem]
      simp

/-- C2: when a semaphore's waiter set is nonempty, sema_up wakes exactly one
waiter, of maximum priority among all waiters whatever their arrival
order, removes precisely that waiter from the waiter set, and increments
the counter. -/
theorem sema_up_wakes_highest (s : Semaphore) (h : s.waiters ≠ []) :
    ∃ w, (sema_up s).2 = some w ∧ w ∈ s.waiters ∧
      (∀ t ∈ s.waiters, t.priority ≤ w.priority) ∧
      (sema_up s).1.waiters = s.waiters.erase w ∧
      (sema_up s).1.value = s.value + 1 ∧
      (sema_up s).1.waiters.length + 1 = s.waiters.length :=
  sema_up_spec s h

/-- Witness for C2 at a concrete waiter set with the maximum in the middle. -/
theorem sema_up_wakes_highest_witness :
    (⟨0, [⟨1, 5, 5, none⟩, ⟨2, 9, 9, none⟩, ⟨3, 7, 7, none⟩]⟩ : Semaphore).waiters ≠ [] ∧
    (∃ w, (sema_up ⟨0, [⟨1, 5, 5, none⟩, ⟨2, 9, 9, none⟩, ⟨3, 7, 7, none⟩]⟩).2 = some w ∧
      w ∈ (⟨0, [⟨1, 5, 5, none⟩, ⟨2, 9, 9, none⟩, ⟨3, 7, 7, none⟩]⟩ : Semaphore).waiters ∧
      (∀ t ∈ (⟨0, [⟨1, 5, 5, none⟩, ⟨2, 9, 9, none⟩, ⟨3, 7, 7, none⟩]⟩ : Semaphore).waiters,
        t.priority ≤ w.priority) ∧
      (sema_up ⟨0, [⟨1, 5, 5, none⟩, ⟨2, 9, 9, none⟩, ⟨3, 7, 7, none⟩]⟩).1.waiters =
        (⟨0, [⟨1, 5, 5, none⟩, ⟨2, 9, 9, none⟩, ⟨3, 7, 7, none⟩]⟩ : Semaphore).waiters.erase w ∧
      (sema_up ⟨0, [⟨1, 5, 5, none⟩, ⟨2, 9, 9, none⟩, ⟨3, 7, 7, none⟩]⟩).1.value =
        (⟨0, [⟨1, 5, 5, none⟩, ⟨2, 9, 9, none⟩, ⟨3, 7, 7, none⟩]⟩ : Semaphore).value + 1 ∧
      (sema_up ⟨0, [⟨1, 5, 5, none⟩, ⟨2, 9, 9, none⟩, ⟨3, 7, 7, none⟩]⟩).1.waiters.length + 1 =
        (⟨0, [⟨1, 5, 5, none⟩, ⟨2, 9, 9, none⟩, ⟨3, 7, 7, none⟩]⟩ : Semaphore).waiters.length) :=
  ⟨by decide, sema_up_wakes_highest
    ⟨0, [⟨1, 5, 5, none⟩, ⟨2, 9, 9, none⟩, ⟨3, 7, 7, none⟩]⟩ (by decide)⟩

/-! Helper lemmas extracting the effect of completed lock operations. -/

theorem lock_acquire_ok (intr : Bool) (c : Thread) (lk lk2 : Lock) (c2 : Thread)
    (h : lock_acquire intr c lk = Outcome.ok (lk2, c2)) :
    lk2 = { lk with holder := some c.id
                    semaphore := { lk.semaphore with value := lk.semaphore.value - 1 } } ∧
    c2 = { c with waiting_lock := none } ∧ intr = false ∧
    lock_held_by_current_thread lk c.id = false ∧ lk.semaphore.value ≠ 0 := by
  unfold lock_acquire at h
  by_cases hintr : intr = true
  · rw [if_pos hintr] at h; cases h
  · have hintr2 : intr = false := by
      cases intr
      · rfl
      · exact absurd rfl hintr
    rw [if_neg hintr] at h
    by_cases hheld : lock_held_by_current_thread lk c.id = true
    · rw [if_pos hheld] at h; cases h
    · rw [if_neg hheld] at h
      by_cases hz : lk.semaphore.value = 0
      · rw [show sema_down intr lk.semaphore = Outcome.blocked from by
          simp [sema_down, hintr2, hz]] at h
        cases h
      · rw [show sema_down intr lk.semaphore =
            Outcome.ok { lk.semaphore with value := lk.semaphore.value - 1 } from by
          simp [sema_down, hintr2, hz]] at h
        simp only [Outcome.ok.injEq, Prod.mk.injEq] at h
        exact ⟨h.1.symm, h.2.symm, hintr2, by simpa using hheld, hz⟩

theorem lock_release_ok_fields (c : Thread) (d : List Thread) (lk : Lock) (r : ReleaseResult)
    (h : lock_release c d lk = Outcome.ok r) :
    lock_held_by_current_thread lk c.id = true ∧
    r.lock.holder = none ∧ r.lock.id = lk.id ∧
    r.lock.semaphore = (sema_up lk.semaphore).1 ∧
    r.donations = remove_lock_donors lk.id d ∧
    r.current.id = c.id ∧
    r.current.original_priority = c.original_priority ∧
    r.current.waiting_lock = c.waiting_lock ∧
    r.woken = (sema_up lk.semaphore).2 ∧
    r.yield = decide (c.original_priority < c.priority) ∧
    r.current.priority =
      (match remove_lock_donors lk.id d with
       | [] => c.original_priority
       | e :: _ =>
         if c.original_priority < e.priority then e.priority
         else c.original_priority) := by
  unfold lock_release at h
  by_cases hheld : lock_held_by_current_thread lk c.id = true
  · rw [if_pos hheld] at h
    simp only [Outcome.ok.injEq] at h
    subst h
    exact ⟨hheld, rfl, rfl, rfl, rfl, rfl, rfl, rfl, rfl, rfl, rfl⟩
  · rw [if_neg hheld] at h
    cases h

theorem lock_step_acquire (lk lk1 : Lock) (t : Nat)
    (h : lock_step lk (LockOp.acquire t) = some lk1) : lk1.holder = some t := by
  simp only [lock_step] at h
  cases ha : lock_acquire false
      { id := t, priority := 0, original_priority := 0, waiting_lock := none } lk with
  | fatal => rw [ha] at h; cases h
  | blocked => rw [ha] at h; cases h
  | ok p =>
    obtain ⟨lk2, c2⟩ := p
    rw [ha] at h
    simp only [Option.some.injEq] at h
    subst h
    have hfields := lock_acquire_ok false _ lk lk2 c2 ha
    rw [hfields.1]

theorem lock_step_release (lk lk1 : Lock) (t : Nat)
    (h : lock_step lk (LockOp.release t) = some lk1) : lk1.holder = none := by
  simp only [lock_step] at h
  cases hr : lock_release
      { id := t, priority := 0, original_priority := 0, waiting_lock := none } [] lk with
  | fatal => rw [hr] at h; cases h
  | blocked => rw [hr] at h; cases h
  | ok r =>
    rw [hr] at h
    simp only [Option.some.injEq] at h
    subst h
    exact (lock_release_ok_fields _ [] lk r hr).2.1

theorem lock_run_last (ops : List LockOp) :
    ∀ lk0 lk : Lock, lock_run lk0 ops = some lk →
      lk.holder = last_acquirer lk0.holder ops := by
  induction ops with
  | nil =>
    intro lk0 lk h
    simp only [lock_run, Option.some.injEq] at h
    rw [← h]
    rfl
  | cons op rest ih =>
    intro lk0 lk h
    simp only [lock_run] at h
    cases hs : lock_step lk0 op with
    | none => rw [hs] at h; cases h
    | some lk1 =>
      rw [hs] at h
      cases op with
      | acquire t =>
        have h1 : lk1.holder = some t := lock_step_acquire lk0 lk1 t hs
        rw [show last_acquirer lk0.holder (LockOp.acquire t :: rest) =
          last_acquirer (some t) rest from rfl]
        rw [← h1]
        exact ih lk1 lk h
      | release t =>
        have h1 : lk1.holder = none := lock_step_release lk0 lk1 t hs
        rw [show last_acquirer lk0.holder (LockOp.release t :: rest) =
          last_acquirer none rest from rfl]
        rw [← h1]
        exact ih lk1 lk h

/-- C1: along any trace of completed lock operations from a fresh lock, the
recorded owner is exactly the thread that last completed an acquire (the
last successful decrement of the internal semaphore through acquire) with
no release completed since; lock_held_by_current_thread is true exactly
for that owner, so at most one thread is recorded as owner at any
instant. -/
theorem lock_owner_invariant (i : Nat) (ops : List LockOp) (lk : Lock)
    (h : lock_run (lock_init i) ops = some lk) :
    lk.holder = last_acquirer none ops ∧
    (∀ t, lock_held_by_current_thread lk t = true ↔ lk.holder = some t) ∧
    (∀ t1 t2, lock_held_by_current_thread lk t1 = true →
      lock_held_by_current_thread lk t2 = true → t1 = t2) := by
  refine ⟨lock_run_last ops (lock_init i) lk h, ?_, ?_⟩
  · intro t
    simp [lock_held_by_current_thread]
  · intro t1 t2 ha hb
    simp only [lock_held_by_current_thread, decide_eq_true_eq] at ha hb
    rw [ha] at hb
    exact Option.some.inj hb

/-- Witness for C1 at a concrete trace with two successive owners. -/
theorem lock_owner_invariant_witness :
    lock_run (lock_init 0) [LockOp.acquire 1, LockOp.release 1, LockOp.acquire 2] =
      some ⟨0, some 2, ⟨0, []⟩⟩ ∧
    ((⟨0, some 2, ⟨0, []⟩⟩ : Lock).holder =
        last_acquirer none [LockOp.acquire 1, LockOp.release 1, LockOp.acquire 2] ∧
      (∀ t, lock_held_by_current_thread ⟨0, some 2, ⟨0, []⟩⟩ t = true ↔
        (⟨0, some 2, ⟨0, []⟩⟩ : Lock).holder = some t) ∧
      (∀ t1 t2, lock_held_by_current_thread ⟨0, some 2, ⟨0, []⟩⟩ t1 = true →
        lock_held_by_current_thread ⟨0, some 2, ⟨0, []⟩⟩ t2 = true → t1 = t2)) :=
  ⟨by decide, lock_owner_invariant 0 [LockOp.acquire 1, LockOp.release 1, LockOp.acquire 2]
    ⟨0, some 2, ⟨0, []⟩⟩ (by decide)⟩

theorem remove_lock_donors_eq_filter (lockId : Nat) (l : List Thread) :
    remove_lock_donors lockId l =
      l.filter (fun t => decide (t.waiting_lock ≠ some lockId)) := by
  induction l with
  | nil => rfl
  | cons t rest ih =>
    by_cases hc : t.waiting_lock = some lockId
    · simp [remove_lock_donors, List.filter_cons, hc, ih]
    · simp [remove_lock_donors, List.filter_cons, hc, ih]

/-- C7: lock_release removes from the donations list exactly the donors
whose waiting_lock is the released lock; every donor waiting on another
lock held by the releasing thread survives, in order and unchanged. -/
theorem lock_release_purges_exactly (c : Thread) (d : List Thread) (lk : Lock)
    (r : ReleaseResult) (h : lock_release c d lk = Outcome.ok r) :
    r.donations = d.filter (fun t => decide (t.waiting_lock ≠ some lk.id)) ∧
    (∀ t ∈ d, t.waiting_lock ≠ some lk.id → t ∈ r.donations) ∧
    (∀ t ∈ r.donations, t ∈ d ∧ t.waiting_lock ≠ some lk.id) ∧
    List.Sublist r.donations d := by
  have hd : r.donations = remove_lock_donors lk.id d :=
    (lock_release_ok_fields c d lk r h).2.2.2.2.1
  rw [hd, remove_lock_donors_eq_filter]
  refine ⟨rfl, ?_, ?_, ?_⟩
  · intro t ht hne
    exact List.mem_filter.mpr ⟨ht, by simpa using hne⟩
  · intro t ht
    have h2 := List.mem_filter.mp ht
    exact ⟨h2.1, by simpa using h2.2⟩
  · exact List.filter_sublist _

/-- Witness for C7: one donor waits on the released lock, one on another. -/
theorem lock_release_purges_exactly_witness :
    lock_release ⟨1, 30, 20, none⟩ [⟨2, 40, 40, some 5⟩, ⟨3, 25, 25, some 9⟩]
        ⟨5, some 1, ⟨0, []⟩⟩ =
      Outcome.ok ⟨⟨5, none, ⟨1, []⟩⟩, ⟨1, 25, 20, none⟩, [⟨3, 25, 25, some 9⟩], true, none⟩ ∧
    ((⟨⟨5, none, ⟨1, []⟩⟩, ⟨1, 25, 20, none⟩, [⟨3, 25, 25, some 9⟩], true, none⟩ :
        ReleaseResult).donations =
      [⟨2, 40, 40, some 5⟩, ⟨3, 25, 25, some 9⟩].filter
        (fun t => decide (t.waiting_lock ≠ some (⟨5, some 1, ⟨0, []⟩⟩ : Lock).id)) ∧
    (∀ t ∈ [⟨2, 40, 40, some 5⟩, ⟨3, 25, 25, some 9⟩],
      t.waiting_lock ≠ some (⟨5, some 1, ⟨0, []⟩⟩ : Lock).id →
      t ∈ (⟨⟨5, none, ⟨1, []⟩⟩, ⟨1, 25, 20, none⟩, [⟨3, 25, 25, some 9⟩], true, none⟩ :
        ReleaseResult).donations) ∧
    (∀ t ∈ (⟨⟨5, none, ⟨1, []⟩⟩, ⟨1, 25, 20, none⟩, [⟨3, 25, 25, some 9⟩], true, none⟩ :
        ReleaseResult).donations,
      t ∈ [⟨2, 40, 40, some 5⟩, ⟨3, 25, 25, some 9⟩] ∧
      t.waiting_lock ≠ some (⟨5, some 1, ⟨0, []⟩⟩ : Lock).id) ∧
    List.Sublist (⟨⟨5, none, ⟨1, []⟩⟩, ⟨1, 25, 20, none⟩, [⟨3, 25, 25, some 9⟩], true, none⟩ :
        ReleaseResult).donations
      [⟨2, 40, 40, some 5⟩, ⟨3, 25, 25, some 9⟩]) :=
  ⟨by decide, lock_release_purges_exactly ⟨1, 30, 20, none⟩
    [⟨2, 40, 40, some 5⟩, ⟨3, 25, 25, some 9⟩] ⟨5, some 1, ⟨0, []⟩⟩
    ⟨⟨5, none, ⟨1, []⟩⟩, ⟨1, 25, 20, none⟩, [⟨3, 25, 25, some 9⟩], true, none⟩ (by decide)⟩

theorem foldl_max_all_le (a : Int) (l : List Thread) (h : ∀ x ∈ l, x.priority ≤ a) :
    List.foldl (fun acc d => max acc d.priority) a l = a := by
  induction l generalizing a with
  | nil => rfl
  | cons x xs ih =>
    simp only [List.foldl]
    rw [max_eq_left (h x (List.mem_cons_self x xs))]
    exact ih a (fun y hy => h y (List.mem_cons_of_mem x hy))

/-- C3: after a release by the lock's owner, the releasing thread's
effective priority is its base priority raised to the highest remaining
donor: it equals base priority when no remaining donor (a donor left for
other locks it still holds) exceeds the base, and otherwise equals the
highest remaining donor's priority.  The donations list is assumed sorted
by descending priority, the order acquire maintains. -/
theorem lock_release_priority_reversal (c : Thread) (d : List Thread) (lk : Lock)
    (r : ReleaseResult)
    (hsorted : d.Pairwise (fun a b => b.priority ≤ a.priority))
    (h : lock_release c d lk = Outcome.ok r) :
    r.current.priority = donorMaxPrio c.original_priority (remove_lock_donors lk.id d) ∧
    c.original_priority ≤ r.current.priority ∧
    (∀ t ∈ remove_lock_donors lk.id d, t.priority ≤ r.current.priority) ∧
    ((∀ t ∈ remove_lock_donors lk.id d, t.priority ≤ c.original_priority) →
      r.current.priority = c.original_priority) ∧
    ((∃ t ∈ remove_lock_donors lk.id d, c.original_priority < t.priority) →
      ∃ t ∈ remove_lock_donors lk.id d, r.current.priority = t.priority ∧
        ∀ t2 ∈ remove_lock_donors lk.id d, t2.priority ≤ t.priority) := by
  have hp := (lock_release_ok_fields c d lk r h).2.2.2.2.2.2.2.2.2.2
  have hrem_sorted : (remove_lock_donors lk.id d).Pairwise
      (fun a b => b.priority ≤ a.priority) := by
    rw [remove_lock_donors_eq_filter]
    exact List.Pairwise.sublist (List.filter_sublist _) hsorted
  cases hrem : remove_lock_donors lk.id d with
  | nil =>
    rw [hrem] at hp
    have hp3 : r.current.priority = c.original_priority := hp
    refine ⟨hp3, le_of_eq hp3.symm, ?_, fun _ => hp3, ?_⟩
    · intro t ht
      cases ht
    · rintro ⟨t, ht, _⟩
      cases ht
  | cons e rest =>
    rw [hrem] at hp hrem_sorted
    have hp3 : r.current.priority =
        if c.original_priority < e.priority then e.priority
        else c.original_priority := hp
    have hp2 : r.current.priority = max c.original_priority e.priority := by
      rw [hp3]
      by_cases hc : c.original_priority < e.priority
      · rw [if_pos hc, max_eq_right (le_of_lt hc)]
      · rw [if_neg hc, max_eq_left (le_of_not_lt hc)]
    have hrest : ∀ x ∈ rest, x.priority ≤ e.priority :=
      fun x hx => (List.pairwise_cons.mp hrem_sorted).1 x hx
    have hfold : donorMaxPrio c.original_priority (e :: rest) =
        max c.original_priority e.priority := by
      unfold donorMaxPrio
      simp only [List.foldl]
      exact foldl_max_all_le _ rest
        (fun x hx => le_trans (hrest x hx) (le_max_right _ _))
    refine ⟨?_, ?_, ?_, ?_, ?_⟩
    · rw [hfold, hp2]
    · rw [hp2]
      exact le_max_left _ _
    · intro t ht
      rw [hp2]
      rcases List.mem_cons.mp ht with rfl | ht2
      · exact le_max_right _ _
      · exact le_trans (hrest t ht2) (le_max_right _ _)
    · intro hall
      rw [hp2]
      exact max_eq_left (hall e (List.mem_cons_self e rest))
    · rintro ⟨t0, ht0, hgt⟩
      have ht0e : t0.priority ≤ e.priority := by
        rcases List.mem_cons.mp ht0 with rfl | ht2
        · exact le_refl _
        · exact hrest t0 ht2
      refine ⟨e, List.mem_cons_self e rest, ?_, ?_⟩
      · rw [hp2]
        exact max_eq_right (le_of_lt (lt_of_lt_of_le hgt ht0e))
      · intro t2 ht2
        rcases List.mem_cons.mp ht2 with rfl | ht3
        · exact le_refl _
        · exact hrest t2 ht3

/-- Witness for C3: the elevated releaser drops to the priority of its
remaining donor, which exceeds its base priority. -/
theorem lock_release_priority_reversal_witness :
    ([⟨2, 40, 40, some 5⟩, ⟨3, 25, 25, some 9⟩] : List Thread).Pairwise
      (fun a b => b.priority ≤ a.priority) ∧
    lock_release ⟨1, 40, 20, none⟩ [⟨2, 40, 40, some 5⟩, ⟨3, 25, 25, some 9⟩]
        ⟨5, some 1, ⟨0, []⟩⟩ =
      Outcome.ok ⟨⟨5, none, ⟨1, []⟩⟩, ⟨1, 25, 20, none⟩, [⟨3, 25, 25, some 9⟩], true, none⟩ ∧
    ((⟨⟨5, none, ⟨1, []⟩⟩, ⟨1, 25, 20, none⟩, [⟨3, 25, 25, some 9⟩], true, none⟩ :
        ReleaseResult).current.priority =
      donorMaxPrio (⟨1, 40, 20, none⟩ : Thread).original_priority
        (remove_lock_donors (⟨5, some 1, ⟨0, []⟩⟩ : Lock).id
          [⟨2, 40, 40, some 5⟩, ⟨3, 25, 25, some 9⟩]) ∧
    (⟨1, 40, 20, none⟩ : Thread).original_priority ≤
      (⟨⟨5, none, ⟨1, []⟩⟩, ⟨1, 25, 20, none⟩, [⟨3, 25, 25, some 9⟩], true, none⟩ :
        ReleaseResult).current.priority ∧
    (∀ t ∈ remove_lock_donors (⟨5, some 1, ⟨0, []⟩⟩ : Lock).id
        [⟨2, 40, 40, some 5⟩, ⟨3, 25, 25, some 9⟩],
      t.priority ≤ (⟨⟨5, none, ⟨1, []⟩⟩, ⟨1, 25, 20, none⟩, [⟨3, 25, 25, some 9⟩], true, none⟩ :
        ReleaseResult).current.priority) ∧
    ((∀ t ∈ remove_lock_donors (⟨5, some 1, ⟨0, []⟩⟩ : Lock).id
        [⟨2, 40, 40, some 5⟩, ⟨3, 25, 25, some 9⟩],
      t.priority ≤ (⟨1, 40, 20, none⟩ : Thread).original_priority) →
      (⟨⟨5, none, ⟨1, []⟩⟩, ⟨1, 25, 20, none⟩, [⟨3, 25, 25, some 9⟩], true, none⟩ :
        ReleaseResult).current.priority = (⟨1, 40, 20, none⟩ : Thread).original_priority) ∧
    ((∃ t ∈ remove_lock_donors (⟨5, some 1, ⟨0, []⟩⟩ : Lock).id
        [⟨2, 40, 40, some 5⟩, ⟨3, 25, 25, some 9⟩],
      (⟨1, 40, 20, none⟩ : Thread).original_priority < t.priority) →
      ∃ t ∈ remove_lock_donors (⟨5, some 1, ⟨0, []⟩⟩ : Lock).id
        [⟨2, 40, 40, some 5⟩, ⟨3, 25, 25, some 9⟩],
        (⟨⟨5, none, ⟨1, []⟩⟩, ⟨1, 25, 20, none⟩, [⟨3, 25, 25, some 9⟩], true, none⟩ :
          ReleaseResult).current.priority = t.priority ∧
        ∀ t2 ∈ remove_lock_donors (⟨5, some 1, ⟨0, []⟩⟩ : Lock).id
          [⟨2, 40, 40, some 5⟩, ⟨3, 25, 25, some 9⟩], t2.priority ≤ t.priority)) :=
  ⟨by decide, by decide, lock_release_priority_reversal ⟨1, 40, 20, none⟩
    [⟨2, 40, 40, some 5⟩, ⟨3, 25, 25, some 9⟩] ⟨5, some 1, ⟨0, []⟩⟩
    ⟨⟨5, none, ⟨1, []⟩⟩, ⟨1, 25, 20, none⟩, [⟨3, 25, 25, some 9⟩], true, none⟩
    (by decide) (by decide)⟩

/-- C5: cond_wait appends a fresh private semaphore at value 0 to the
condition's waiter sequence, releases the lock before the caller blocks
on that private semaphore, and reacquires the lock before returning, so
the caller holds the lock again on return. -/
theorem cond_wait_release_reacquire (current : Thread) (donations : List Thread)
    (lk : Lock) (cond : Condition) (st : CondWaitBlocked)
    (priv2 : Semaphore) (lk2 lk3 : Lock) (c3 : Thread)
    (h1 : cond_wait_enter false current donations lk cond = Outcome.ok st)
    (h2 : cond_wait_exit st.current priv2 lk2 = Outcome.ok (lk3, c3)) :
    st.cond.waiters = cond.waiters ++ [⟨st.privateSema⟩] ∧
    st.privateSema.value = 0 ∧
    st.privateSema.waiters = [st.current] ∧
    st.lock.holder = none ∧
    st.current.id = current.id ∧
    lk3.holder = some current.id := by
  unfold cond_wait_enter at h1
  rw [if_neg (by simp)] at h1
  by_cases hheld : lock_held_by_current_thread lk current.id = true
  · rw [if_pos hheld] at h1
    cases hrel : lock_release current donations lk with
    | fatal => rw [hrel] at h1; cases h1
    | blocked => rw [hrel] at h1; cases h1
    | ok r =>
      rw [hrel] at h1
      simp only [Outcome.ok.injEq] at h1
      subst h1
      have hfields := lock_release_ok_fields current donations lk r hrel
      refine ⟨rfl, rfl, rfl, hfields.2.1, hfields.2.2.2.2.2.1, ?_⟩
      unfold cond_wait_exit at h2
      by_cases hz : priv2.value = 0
      · rw [show sema_down false priv2 = Outcome.blocked from by simp [sema_down, hz]] at h2
        cases h2
      · rw [show sema_down false priv2 =
            Outcome.ok { priv2 with value := priv2.value - 1 } from by
          simp [sema_down, hz]] at h2
        have hacq := lock_acquire_ok false r.current lk2 lk3 c3 h2
        rw [hacq.1]
        show some r.current.id = some current.id
        rw [hfields.2.2.2.2.2.1]
  · rw [if_neg hheld] at h1
    cases h1

/-- Witness for C5 at a concrete monitor round trip. -/
theorem cond_wait_release_reacquire_witness :
    cond_wait_enter false ⟨1, 7, 7, none⟩ [] ⟨4, some 1, ⟨0, []⟩⟩ ⟨[]⟩ =
      Outcome.ok ⟨⟨[⟨⟨0, [⟨1, 7, 7, none⟩]⟩⟩]⟩, ⟨4, none, ⟨1, []⟩⟩, ⟨1, 7, 7, none⟩, [],
        ⟨0, [⟨1, 7, 7, none⟩]⟩⟩ ∧
    cond_wait_exit (⟨⟨[⟨⟨0, [⟨1, 7, 7, none⟩]⟩⟩]⟩, ⟨4, none, ⟨1, []⟩⟩, ⟨1, 7, 7, none⟩, [],
        ⟨0, [⟨1, 7, 7, none⟩]⟩⟩ : CondWaitBlocked).current ⟨1, []⟩ ⟨4, none, ⟨1, []⟩⟩ =
      Outcome.ok (⟨4, some 1, ⟨0, []⟩⟩, ⟨1, 7, 7, none⟩) ∧
    ((⟨⟨[⟨⟨0, [⟨1, 7, 7, none⟩]⟩⟩]⟩, ⟨4, none, ⟨1, []⟩⟩, ⟨1, 7, 7, none⟩, [],
        ⟨0, [⟨1, 7, 7, none⟩]⟩⟩ : CondWaitBlocked).cond.waiters =
      (⟨[]⟩ : Condition).waiters ++
        [⟨(⟨⟨[⟨⟨0, [⟨1, 7, 7, none⟩]⟩⟩]⟩, ⟨4, none, ⟨1, []⟩⟩, ⟨1, 7, 7, none⟩, [],
          ⟨0, [⟨1, 7, 7, none⟩]⟩⟩ : CondWaitBlocked).privateSema⟩] ∧
    (⟨⟨[⟨⟨0, [⟨1, 7, 7, none⟩]⟩⟩]⟩, ⟨4, none, ⟨1, []⟩⟩, ⟨1, 7, 7, none⟩, [],
        ⟨0, [⟨1, 7, 7, none⟩]⟩⟩ : CondWaitBlocked).privateSema.value = 0 ∧
    (⟨⟨[⟨⟨0, [⟨1, 7, 7, none⟩]⟩⟩]⟩, ⟨4, none, ⟨1, []⟩⟩, ⟨1, 7, 7, none⟩, [],
        ⟨0, [⟨1, 7, 7, none⟩]⟩⟩ : CondWaitBlocked).privateSema.waiters =
      [(⟨⟨[⟨⟨0, [⟨1, 7, 7, none⟩]⟩⟩]⟩, ⟨4, none, ⟨1, []⟩⟩, ⟨1, 7, 7, none⟩, [],
        ⟨0, [⟨1, 7, 7, none⟩]⟩⟩ : CondWaitBlocked).current] ∧
    (⟨⟨[⟨⟨0, [⟨1, 7, 7, none⟩]⟩⟩]⟩, ⟨4, none, ⟨1, []⟩⟩, ⟨1, 7, 7, none⟩, [],
        ⟨0, [⟨1, 7, 7, none⟩]⟩⟩ : CondWaitBlocked).lock.holder = none ∧
    (⟨⟨[⟨⟨0, [⟨1, 7, 7, none⟩]⟩⟩]⟩, ⟨4, none, ⟨1, []⟩⟩, ⟨1, 7, 7, none⟩, [],
        ⟨0, [⟨1, 7, 7, none⟩]⟩⟩ : CondWaitBlocked).current.id = (⟨1, 7, 7, none⟩ : Thread).id ∧
    (⟨4, some 1, ⟨0, []⟩⟩ : Lock).holder = some (⟨1, 7, 7, none⟩ : Thread).id) :=
  ⟨by decide, by decide, cond_wait_release_reacquire ⟨1, 7, 7, none⟩ [] ⟨4, some 1, ⟨0, []⟩⟩ ⟨[]⟩
    ⟨⟨[⟨⟨0, [⟨1, 7, 7, none⟩]⟩⟩]⟩, ⟨4, none, ⟨1, []⟩⟩, ⟨1, 7, 7, none⟩, [],
      ⟨0, [⟨1, 7, 7, none⟩]⟩⟩ ⟨1, []⟩ ⟨4, none, ⟨1, []⟩⟩ ⟨4, some 1, ⟨0, []⟩⟩ ⟨1, 7, 7, none⟩
    (by decide) (by decide)⟩

/-! Lemmas about the condition-variable comparator and selection. -/

theorem sem_less_eq (e1 e2 : semaphore_elem)
    (h1 : e1.semaphore.waiters ≠ []) (h2 : e2.semaphore.waiters ≠ []) :
    sem_less_priority_func e1 e2 = some (entry_less e1 e2) := by
  cases hw1 : e1.semaphore.waiters with
  | nil => exact absurd hw1 h1
  | cons x xs =>
    cases hw2 : e2.semaphore.waiters with
    | nil => exact absurd hw2 h2
    | cons y ys =>
      simp [sem_less_priority_func, entry_less, entryPrio, list_max, hw1, hw2]

theorem list_max_with_eq (l : List semaphore_elem) :
    ∀ m : semaphore_elem, (∀ e, (e = m ∨ e ∈ l) → e.semaphore.waiters ≠ []) →
      list_max_with sem_less_priority_func m l = some (list_max_from entry_less m l) := by
  induction l with
  | nil =>
    intro m h
    rfl
  | cons x xs ih =>
    intro m h
    have hm := h m (Or.inl rfl)
    have hx := h x (Or.inr (List.mem_cons_self x xs))
    have hsem := sem_less_eq m x hm hx
    simp only [list_max_with, list_max_from, hsem]
    apply ih
    intro e he
    rcases he with he | he
    · subst he
      by_cases hb : entry_less m x = true
      · simp only [hb, if_true]
        exact hx
      · simp only [eq_false_of_ne_true hb, if_false]
        exact hm
    · exact h e (Or.inr (List.mem_cons_of_mem x he))

/-- C10: the comparator used by cond_signal dereferences the maximum
element of each queued private semaphore's waiter list as a thread; it is
well defined exactly when both waiter lists are nonempty, and under the
invariant that every private semaphore in the condition's waiter sequence
has a nonempty waiter list (its waiting thread has already blocked) every
comparison is defined and cond_signal never reaches the
undefined-dereference branch. -/
theorem sem_less_priority_welldefined (cid : Nat) (lk : Lock) (cond : Condition)
    (hheld : lock_held_by_current_thread lk cid = true)
    (hwf : ∀ e ∈ cond.waiters, e.semaphore.waiters ≠ []) :
    (∀ e1 e2 : semaphore_elem,
      (sem_less_priority_func e1 e2).isSome = true ↔
        (e1.semaphore.waiters ≠ [] ∧ e2.semaphore.waiters ≠ [])) ∧
    (∀ e1 ∈ cond.waiters, ∀ e2 ∈ cond.waiters,
      (sem_less_priority_func e1 e2).isSome = true) ∧
    (cond_signal false cid lk cond).isOk = true := by
  have hiff : ∀ e1 e2 : semaphore_elem,
      (sem_less_priority_func e1 e2).isSome = true ↔
        (e1.semaphore.waiters ≠ [] ∧ e2.semaphore.waiters ≠ []) := by
    intro e1 e2
    constructor
    · intro hs
      refine ⟨?_, ?_⟩
      · intro hnil
        rw [show sem_less_priority_func e1 e2 = none from by
          simp [sem_less_priority_func, list_max, hnil]] at hs
        cases hs
      · intro hnil
        rw [show sem_less_priority_func e1 e2 = none from by
          cases hx : e1.semaphore.waiters <;>
            simp [sem_less_priority_func, list_max, hnil, hx]] at hs
        cases hs
    · rintro ⟨h1, h2⟩
      rw [sem_less_eq e1 e2 h1 h2]
      rfl
  refine ⟨hiff, ?_, ?_⟩
  · intro e1 h1 e2 h2
    exact (hiff e1 e2).mpr ⟨hwf e1 h1, hwf e2 h2⟩
  · unfold cond_signal
    rw [if_neg (by simp), if_pos hheld]
    cases hw : cond.waiters with
    | nil => rfl
    | cons x xs =>
      rw [hw] at hwf
      have hcond : ∀ e, (e = x ∨ e ∈ xs) → e.semaphore.waiters ≠ [] :=
        fun e he => hwf e (List.mem_cons.mpr he)
      simp [list_max_with_eq xs x hcond, CondResult.isOk]

/-- Witness for C10 with two blocked waiters. -/
theorem sem_less_priority_welldefined_witness :
    lock_held_by_current_thread ⟨0, some 1, ⟨0, []⟩⟩ 1 = true ∧
    (∀ e ∈ (⟨[⟨⟨0, [⟨10, 3, 3, none⟩]⟩⟩, ⟨⟨0, [⟨11, 8, 8, none⟩]⟩⟩]⟩ : Condition).waiters,
      e.semaphore.waiters ≠ []) ∧
    ((∀ e1 e2 : semaphore_elem,
      (sem_less_priority_func e1 e2).isSome = true ↔
        (e1.semaphore.waiters ≠ [] ∧ e2.semaphore.waiters ≠ [])) ∧
    (∀ e1 ∈ (⟨[⟨⟨0, [⟨10, 3, 3, none⟩]⟩⟩, ⟨⟨0, [⟨11, 8, 8, none⟩]⟩⟩]⟩ : Condition).waiters,
      ∀ e2 ∈ (⟨[⟨⟨0, [⟨10, 3, 3, none⟩]⟩⟩, ⟨⟨0, [⟨11, 8, 8, none⟩]⟩⟩]⟩ : Condition).waiters,
      (sem_less_priority_func e1 e2).isSome = true) ∧
    (cond_signal false 1 ⟨0, some 1, ⟨0, []⟩⟩
      ⟨[⟨⟨0, [⟨10, 3, 3, none⟩]⟩⟩, ⟨⟨0, [⟨11, 8, 8, none⟩]⟩⟩]⟩).isOk = true) :=
  ⟨by decide, by decide, sem_less_priority_welldefined 1 ⟨0, some 1, ⟨0, []⟩⟩
    ⟨[⟨⟨0, [⟨10, 3, 3, none⟩]⟩⟩, ⟨⟨0, [⟨11, 8, 8, none⟩]⟩⟩]⟩ (by decide) (by decide)⟩

theorem cond_broadcast_go_spec (cid : Nat) (lk : Lock)
    (hheld : lock_held_by_current_thread lk cid = true) :
    ∀ (n : Nat) (l : List semaphore_elem), l.length ≤ n →
      (∀ e ∈ l, e.semaphore.waiters ≠ []) →
      ∃ out, cond_broadcast_go false cid lk n l = CondResult.ok out ∧
        List.Perm out l ∧
        out.Pairwise (fun a b => entryPrio b ≤ entryPrio a) := by
  intro n
  induction n with
  | zero =>
    intro l hlen hwf
    cases l with
    | nil => exact ⟨[], rfl, List.Perm.refl _, List.Pairwise.nil⟩
    | cons x xs => simp at hlen
  | succ n ih =>
    intro l hlen hwf
    cases l with
    | nil => exact ⟨[], rfl, List.Perm.refl _, List.Pairwise.nil⟩
    | cons x xs =>
      have hcond : ∀ e, (e = x ∨ e ∈ xs) → e.semaphore.waiters ≠ [] :=
        fun e he => hwf e (List.mem_cons.mpr he)
      have hmax := list_max_with_eq xs x hcond
      have hmem : list_max_from entry_less x xs ∈ x :: xs := by
        rcases list_max_from_mem entry_less x xs with h2 | h2
        · rw [h2]; exact List.mem_cons_self x xs
        · exact List.mem_cons_of_mem x h2
      have hge := list_max_from_ge entryPrio entry_less (fun a b => rfl) x xs
      have herase_len : ((x :: xs).erase (list_max_from entry_less x xs)).length ≤ n := by
        rw [List.length_erase_of_mem hmem]
        simp only [List.length_cons] at hlen
        simp only [List.length_cons]
        omega
      have herase_wf : ∀ e ∈ (x :: xs).erase (list_max_from entry_less x xs),
          e.semaphore.waiters ≠ [] :=
        fun e he => hwf e (List.mem_of_mem_erase he)
      obtain ⟨out, hout, hperm, hpair⟩ := ih _ herase_len herase_wf
      refine ⟨list_max_from entry_less x xs :: out, ?_, ?_, ?_⟩
      · simp only [cond_broadcast_go]
        rw [if_neg (by simp), if_pos hheld]
        simp only [hmax, hout]
      · have hp1 : List.Perm (list_max_from entry_less x xs :: out)
            (list_max_from entry_less x xs :: (x :: xs).erase (list_max_from entry_less x xs)) :=
          List.Perm.cons _ hperm
        have hp2 : List.Perm (x :: xs)
            (list_max_from entry_less x xs :: (x :: xs).erase (list_max_from entry_less x xs)) :=
          List.perm_cons_erase hmem
        exact hp1.trans hp2.symm
      · refine List.Pairwise.cons ?_ hpair
        intro b hb
        have hbmem : b ∈ x :: xs := List.mem_of_mem_erase (hperm.mem_iff.mp hb)
        rcases List.mem_cons.mp hbmem with rfl | hb2
        · exact hge.1
        · exact hge.2 b hb2

/-- C8: with a nonempty waiter sequence each of whose private semaphores
holds its blocked thread, cond_signal removes the entry whose blocked
thread has the highest priority and wakes that thread by upping its
private semaphore; cond_broadcast empties the waiter sequence, waking all
current waiters highest priority first. -/
theorem cond_wakeup_priority_order (cid : Nat) (lk : Lock) (cond : Condition)
    (hne : cond.waiters ≠ [])
    (hwf : ∀ e ∈ cond.waiters, e.semaphore.waiters ≠ [])
    (hheld : lock_held_by_current_thread lk cid = true) :
    (∃ m, m ∈ cond.waiters ∧ (∀ e ∈ cond.waiters, entryPrio e ≤ entryPrio m) ∧
      cond_signal false cid lk cond =
        CondResult.ok (⟨cond.waiters.erase m⟩, some (m, sema_up m.semaphore)) ∧
      (∃ w, (sema_up m.semaphore).2 = some w ∧ w ∈ m.semaphore.waiters ∧
        ∀ t ∈ m.semaphore.waiters, t.priority ≤ w.priority)) ∧
    (∃ out, cond_broadcast false cid lk cond = CondResult.ok (⟨[]⟩, out) ∧
      List.Perm out cond.waiters ∧
      out.Pairwise (fun a b => entryPrio b ≤ entryPrio a)) := by
  constructor
  · cases hw : cond.waiters with
    | nil => exact absurd hw hne
    | cons x xs =>
      rw [hw] at hwf
      have hcond : ∀ e, (e = x ∨ e ∈ xs) → e.semaphore.waiters ≠ [] :=
        fun e he => hwf e (List.mem_cons.mpr he)
      have hmax := list_max_with_eq xs x hcond
      have hmem : list_max_from entry_less x xs ∈ x :: xs := by
        rcases list_max_from_mem entry_less x xs with h2 | h2
        · rw [h2]; exact List.mem_cons_self x xs
        · exact List.mem_cons_of_mem x h2
      have hge := list_max_from_ge entryPrio entry_less (fun a b => rfl) x xs
      refine ⟨list_max_from entry_less x xs, hmem, ?_, ?_, ?_⟩
      · intro e he
        rcases List.mem_cons.mp he with rfl | he2
        · exact hge.1
        · exact hge.2 e he2
      · unfold cond_signal
        rw [if_neg (by simp), if_pos hheld, hw]
        simp only [hmax]
      · obtain ⟨w, hw2, hwm, hwge⟩ :=
          sema_up_spec (list_max_from entry_less x xs).semaphore (hwf _ hmem)
        exact ⟨w, hw2, hwm, hwge.1⟩
  · obtain ⟨out, hout, hperm, hpair⟩ :=
      cond_broadcast_go_spec cid lk hheld cond.waiters.length cond.waiters (le_refl _) hwf
    refine ⟨out, ?_, hperm, hpair⟩
    unfold cond_broadcast
    rw [hout]

/-- Witness for C8 with three blocked waiters of distinct priorities. -/
theorem cond_wakeup_priority_order_witness :
    (⟨[⟨⟨0, [⟨10, 3, 3, none⟩]⟩⟩, ⟨⟨0, [⟨11, 8, 8, none⟩]⟩⟩, ⟨⟨0, [⟨12, 5, 5, none⟩]⟩⟩]⟩ :
      Condition).waiters ≠ [] ∧
    (∀ e ∈ (⟨[⟨⟨0, [⟨10, 3, 3, none⟩]⟩⟩, ⟨⟨0, [⟨11, 8, 8, none⟩]⟩⟩,
        ⟨⟨0, [⟨12, 5, 5, none⟩]⟩⟩]⟩ : Condition).waiters, e.semaphore.waiters ≠ []) ∧
    lock_held_by_current_thread ⟨0, some 1, ⟨0, []⟩⟩ 1 = true ∧
    ((∃ m, m ∈ (⟨[⟨⟨0, [⟨10, 3, 3, none⟩]⟩⟩, ⟨⟨0, [⟨11, 8, 8, none⟩]⟩⟩,
        ⟨⟨0, [⟨12, 5, 5, none⟩]⟩⟩]⟩ : Condition).waiters ∧
      (∀ e ∈ (⟨[⟨⟨0, [⟨10, 3, 3, none⟩]⟩⟩, ⟨⟨0, [⟨11, 8, 8, none⟩]⟩⟩,
        ⟨⟨0, [⟨12, 5, 5, none⟩]⟩⟩]⟩ : Condition).waiters, entryPrio e ≤ entryPrio m) ∧
      cond_signal false 1 ⟨0, some 1, ⟨0, []⟩⟩
          ⟨[⟨⟨0, [⟨10, 3, 3, none⟩]⟩⟩, ⟨⟨0, [⟨11, 8, 8, none⟩]⟩⟩, ⟨⟨0, [⟨12, 5, 5, none⟩]⟩⟩]⟩ =
        CondResult.ok (⟨(⟨[⟨⟨0, [⟨10, 3, 3, none⟩]⟩⟩, ⟨⟨0, [⟨11, 8, 8, none⟩]⟩⟩,
          ⟨⟨0, [⟨12, 5, 5, none⟩]⟩⟩]⟩ : Condition).waiters.erase m⟩,
          some (m, sema_up m.semaphore)) ∧
      (∃ w, (sema_up m.semaphore).2 = some w ∧ w ∈ m.semaphore.waiters ∧
        ∀ t ∈ m.semaphore.waiters, t.priority ≤ w.priority)) ∧
    (∃ out, cond_broadcast false 1 ⟨0, some 1, ⟨0, []⟩⟩
          ⟨[⟨⟨0, [⟨10, 3, 3, none⟩]⟩⟩, ⟨⟨0, [⟨11, 8, 8, none⟩]⟩⟩, ⟨⟨0, [⟨12, 5, 5, none⟩]⟩⟩]⟩ =
        CondResult.ok (⟨[]⟩, out) ∧
      List.Perm out (⟨[⟨⟨0, [⟨10, 3, 3, none⟩]⟩⟩, ⟨⟨0, [⟨11, 8, 8, none⟩]⟩⟩,
        ⟨⟨0, [⟨12, 5, 5, none⟩]⟩⟩]⟩ : Condition).waiters ∧
      out.Pairwise (fun a b => entryPrio b ≤ entryPrio a))) :=
  ⟨by decide, by decide, by decide, cond_wakeup_priority_order 1 ⟨0, some 1, ⟨0, []⟩⟩
    ⟨[⟨⟨0, [⟨10, 3, 3, none⟩]⟩⟩, ⟨⟨0, [⟨11, 8, 8, none⟩]⟩⟩, ⟨⟨0, [⟨12, 5, 5, none⟩]⟩⟩]⟩
    (by decide) (by decide) (by decide)⟩

/-- C9 counterexample: a broadcast on an empty condition variable by a
thread that does not hold the lock returns normally instead of failing a
held-lock assertion: cond_broadcast itself asserts only non-NULL
arguments, and with the waiter sequence empty the loop body (and with it
cond_signal's assertion) never runs, so the claimed fatal termination for
signaling without the lock does not happen at this input. -/
theorem cond_broadcast_unheld_empty_silent :
    lock_held_by_current_thread ⟨0, some 1, ⟨0, []⟩⟩ 2 = false ∧
    cond_broadcast false 2 ⟨0, some 1, ⟨0, []⟩⟩ ⟨[]⟩ = CondResult.ok (⟨[]⟩, []) ∧
    cond_broadcast false 2 ⟨0, some 1, ⟨0, []⟩⟩ ⟨[]⟩ ≠ CondResult.fatal :=
  ⟨by decide, by decide, by decide⟩

/-- C9 (amended): acquiring a lock already held by the caller (via acquire
or try_acquire), releasing a lock not held by the caller, and calling
down, acquire or wait from interrupt context are all fatal; cond_signal
without holding the associated lock is always fatal; cond_broadcast
without holding the lock is fatal exactly when the waiter sequence is
nonempty (through its first cond_signal call) and returns silently,
doing nothing, when the waiter sequence is empty. -/
theorem fatal_precondition_violations :
    (∀ (intr : Bool) (c : Thread) (lk : Lock),
      lock_held_by_current_thread lk c.id = true →
      lock_acquire intr c lk = Outcome.fatal) ∧
    (∀ (c : Thread) (lk : Lock),
      lock_held_by_current_thread lk c.id = true →
      lock_try_acquire c lk = Outcome.fatal) ∧
    (∀ (c : Thread) (d : List Thread) (lk : Lock),
      lock_held_by_current_thread lk c.id = false →
      lock_release c d lk = Outcome.fatal) ∧
    (∀ s : Semaphore, sema_down true s = Outcome.fatal) ∧
    (∀ (c : Thread) (lk : Lock), lock_acquire true c lk = Outcome.fatal) ∧
    (∀ (c : Thread) (d : List Thread) (lk : Lock) (cond : Condition),
      cond_wait_enter true c d lk cond = Outcome.fatal) ∧
    (∀ (c : Thread) (d : List Thread) (lk : Lock) (cond : Condition),
      lock_held_by_current_thread lk c.id = false →
      cond_wait_enter false c d lk cond = Outcome.fatal) ∧
    (∀ (cid : Nat) (lk : Lock) (cond : Condition),
      lock_held_by_current_thread lk cid = false →
      cond_signal false cid lk cond = CondResult.fatal) ∧
    (∀ (cid : Nat) (lk : Lock) (cond : Condition),
      lock_held_by_current_thread lk cid = false → cond.waiters ≠ [] →
      cond_broadcast false cid lk cond = CondResult.fatal) ∧
    (∀ (cid : Nat) (lk : Lock),
      cond_broadcast false cid lk ⟨[]⟩ = CondResult.ok (⟨[]⟩, [])) := by
  refine ⟨?_, ?_, ?_, ?_, ?_, ?_, ?_, ?_, ?_, ?_⟩
  · intro intr c lk h
    cases intr <;> simp [lock_acquire, h]
  · intro c lk h
    simp [lock_try_acquire, h]
  · intro c d lk h
    simp [lock_release, h]
  · intro s
    rfl
  · intro c lk
    rfl
  · intro c d lk cond
    rfl
  · intro c d lk cond h
    simp [cond_wait_enter, h]
  · intro cid lk cond h
    simp [cond_signal, h]
  · intro cid lk cond h hne
    unfold cond_broadcast
    cases hw : cond.waiters with
    | nil => exact absurd hw hne
    | cons x xs =>
      simp [cond_broadcast_go, List.length_cons, h]
  · intro cid lk
    rfl

/-- Witness for the amended C9 at concrete violating calls. -/
theorem fatal_precondition_violations_witness :
    lock_acquire false ⟨1, 0, 0, none⟩ ⟨0, some 1, ⟨0, []⟩⟩ = Outcome.fatal ∧
    lock_try_acquire ⟨1, 0, 0, none⟩ ⟨0, some 1, ⟨0, []⟩⟩ = Outcome.fatal ∧
    lock_release ⟨2, 0, 0, none⟩ [] ⟨0, some 1, ⟨0, []⟩⟩ = Outcome.fatal ∧
    sema_down true ⟨1, []⟩ = Outcome.fatal ∧
    lock_acquire true ⟨1, 0, 0, none⟩ ⟨0, none, ⟨1, []⟩⟩ = Outcome.fatal ∧
    cond_wait_enter true ⟨1, 0, 0, none⟩ [] ⟨0, some 1, ⟨0, []⟩⟩ ⟨[]⟩ = Outcome.fatal ∧
    cond_wait_enter false ⟨2, 0, 0, none⟩ [] ⟨0, some 1, ⟨0, []⟩⟩ ⟨[]⟩ = Outcome.fatal ∧
    cond_signal false 2 ⟨0, some 1, ⟨0, []⟩⟩ ⟨[]⟩ = CondResult.fatal ∧
    cond_broadcast false 2 ⟨0, some 1, ⟨0, []⟩⟩ ⟨[⟨⟨0, [⟨3, 5, 5, none⟩]⟩⟩]⟩ =
      CondResult.fatal ∧
    cond_broadcast false 2 ⟨0, some 1, ⟨0, []⟩⟩ ⟨[]⟩ = CondResult.ok (⟨[]⟩, []) :=
  ⟨fatal_precondition_violations.1 false ⟨1, 0, 0, none⟩ ⟨0, some 1, ⟨0, []⟩⟩ (by decide),
   fatal_precondition_violations.2.1 ⟨1, 0, 0, none⟩ ⟨0, some 1, ⟨0, []⟩⟩ (by decide),
   fatal_precondition_violations.2.2.1 ⟨2, 0, 0, none⟩ [] ⟨0, some 1, ⟨0, []⟩⟩ (by decide),
   fatal_precondition_violations.2.2.2.1 ⟨1, []⟩,
   fatal_precondition_violations.2.2.2.2.1 ⟨1, 0, 0, none⟩ ⟨0, none, ⟨1, []⟩⟩,
   fatal_precondition_violations.2.2.2.2.2.1 ⟨1, 0, 0, none⟩ [] ⟨0, some 1, ⟨0, []⟩⟩ ⟨[]⟩,
   fatal_precondition_violations.2.2.2.2.2.2.1 ⟨2, 0, 0, none⟩ [] ⟨0, some 1, ⟨0, []⟩⟩ ⟨[]⟩
     (by decide),
   fatal_precondition_violations.2.2.2.2.2.2.2.1 2 ⟨0, some 1, ⟨0, []⟩⟩ ⟨[]⟩ (by decide),
   fatal_precondition_violations.2.2.2.2.2.2.2.2.1 2 ⟨0, some 1, ⟨0, []⟩⟩
     ⟨[⟨⟨0, [⟨3, 5, 5, none⟩]⟩⟩]⟩ (by decide) (by decide),
   fatal_precondition_violations.2.2.2.2.2.2.2.2.2 2 ⟨0, some 1, ⟨0, []⟩⟩⟩

end Synch
